import Mathlib

/-!
Verification development for the per-patient retrieval index of
`src/app/rag.py` (medical_rag_backend).

The embedding below translates the module's functions:
vector padding (`_pad_vector`), text chunking (`_chunk_text`), the
file-backed per-patient store (`_load_or_create_index`,
`_save_index_and_meta`), the indexing operations (`add_text_to_index`,
`add_image_to_index`) and the query operations (`search_patient_index`,
`search_by_vector`, `get_patient_index_stats`).

Modelling decisions:
  - float32 scalars are modelled as rationals: no claim examined here
    depends on floating-point rounding (padding and truncation only move
    values, they never compute with them).
  - The FAISS index is modelled as its dimension together with the list of
    stored vectors (`IndexFlatL2`, `add`, `ntotal` mirror the calls the
    source makes).  The FAISS `search` call and the sentence-transformers
    `encode` call are external libraries, so they enter as function
    parameters; where a property needs their documented behaviour it is a
    named hypothesis (`faissContract`, an encode length contract).
  - The on-disk store of one patient is a pair of optional files; a file
    that is present may still fail to deserialize, hence
    `Option (Option _)`.  Distinct patients use distinct file paths, so a
    single-patient store loses no generality.
  - Python exceptions that escape a function are modelled with `Except`.
-/

namespace MedicalRag

/-- Scalar values stored in vectors.  The source uses float32; values are
only moved around, never computed with, so rationals model them exactly. -/
abbrev Scalar := ℚ

/-- An embedding vector, a finite sequence of scalars. -/
abbrev Vec := List Scalar

/-- Text model output width, `rag.py` line 14 (all-MiniLM-L6-v2 gives 384). -/
def TEXT_DIM : Nat := 384

/-- Image model output width, `rag.py` line 17 (CLIP ViT-B-32 gives 512). -/
def IMAGE_DIM : Nat := 512

/-- Unified index width, `rag.py` line 20: the larger of the two widths. -/
def EMBED_DIM : Nat := max TEXT_DIM IMAGE_DIM

/-- Model of `_pad_vector` (`rag.py` lines 22-31): return the vector
unchanged at width `EMBED_DIM`, truncate above it, zero-pad below it. -/
def _pad_vector (vec : Vec) : Vec :=
  if vec.length = EMBED_DIM then vec
  else if EMBED_DIM < vec.length then vec.take EMBED_DIM
  else vec ++ List.replicate (EMBED_DIM - vec.length) 0

/-- Whitespace test matching Python `str.strip()` on the ASCII range. -/
def isspace (c : Char) : Bool :=
  c == ' ' || c == '\t' || c == '\n' || c == '\r' || c == '\x0b' || c == '\x0c'

/-- Model of Python `str.strip()`: drop whitespace from both ends. -/
def pyStrip (l : List Char) : List Char :=
  ((l.dropWhile isspace).reverse.dropWhile isspace).reverse

/-- Loop body of `_chunk_text` (`rag.py` lines 77-90).  The Python `while`
loop is modelled with a fuel argument; each iteration advances `start` by
`step ≥ 1` for the parameters the source uses, so fuel `t.length + 1`
(supplied by `_chunk_text`) is never exhausted there.  Per iteration the
slice `text[start:min(start+max_chars, len)]` is `(t.drop start).take
max_chars`; a stripped-nonempty chunk is appended, and the loop breaks once
`min(start+max_chars, len) >= len`, i.e. `len ≤ start + max_chars`. -/
def chunkGo (t : List Char) (max_chars step : Nat) : Nat → Nat → List (List Char)
  | 0, _ => []
  | fuel + 1, start =>
    if start < t.length then
      let chunk := (t.drop start).take max_chars
      let stripped := pyStrip chunk
      let tail :=
        if t.length ≤ start + max_chars then []
        else chunkGo t max_chars step fuel (start + step)
      if stripped = [] then tail else stripped :: tail
    else []

/-- Model of `_chunk_text` (`rag.py` lines 65-90): strip the text, bail out
when empty, then walk overlapping windows of `max_chars` characters whose
start offsets step by `max_chars - overlap` (degrading to `max_chars` when
that step would be nonpositive). -/
def _chunk_text (text : List Char) (max_chars overlap : Nat) : List (List Char) :=
  if text = [] then []
  else
    let t := pyStrip text
    if t = [] then []
    else
      let step := if max_chars - overlap = 0 then max_chars else max_chars - overlap
      chunkGo t max_chars step (t.length + 1) 0

/-- Model of a FAISS flat index as its declared dimension `d` plus the list
of stored vectors; `ntotal` is the number of stored vectors. -/
structure FaissIndex where
  d : Nat
  vecs : List Vec
deriving DecidableEq

/-- Model of `faiss.IndexFlatL2(d)`: an empty index of dimension `d`. -/
def IndexFlatL2 (d : Nat) : FaissIndex := ⟨d, []⟩

/-- Model of `index.add(...)`: append the given vectors. -/
def FaissIndex.add (idx : FaissIndex) (vs : List Vec) : FaissIndex :=
  ⟨idx.d, idx.vecs ++ vs⟩

/-- Model of `index.ntotal`. -/
def FaissIndex.ntotal (idx : FaissIndex) : Nat := idx.vecs.length

/-- Entry modality tag of a metadata record. -/
inductive EntryType
  | text
  | image
deriving DecidableEq

/-- One metadata record, `rag.py` lines 116-121 and 143-148. -/
structure Meta where
  chunk_id : Nat
  report_id : Int
  type : EntryType
  text : List Char
deriving DecidableEq

/-- Default record used (under a bounds guard) to model Python's
`metadata[idx]` access without a dependent index proof. -/
def dfltMeta : Meta := ⟨0, 0, EntryType.text, []⟩

/-- One patient's on-disk store.  Each component: `none` when the file is
missing; `some none` when the file exists but fails to deserialize
(`faiss.read_index` raising, or `json.load` raising); `some (some x)` when
it deserializes to `x`.  Patients have disjoint file paths
(`_get_index_paths`), so one store per patient loses no generality. -/
structure Store where
  indexFile : Option (Option FaissIndex)
  metaFile : Option (Option (List Meta))
deriving DecidableEq

/-- The store of a patient with no prior writes: both files missing. -/
def absentStore : Store := ⟨none, none⟩

/-- Errors that escape the module to its caller.  Only the metadata
`json.load` in `_load_or_create_index` can raise there (`rag.py` line 50);
the `faiss.read_index` call is wrapped in try/except. -/
inductive LoadError
  | metaReadError
deriving DecidableEq

/-- Model of `_load_or_create_index` (`rag.py` lines 40-55): when both
files exist, read the index (falling back to a fresh empty index of width
`EMBED_DIM` if deserialization fails) and then `json.load` the metadata
(which raises on an unreadable metadata file); otherwise start empty. -/
def _load_or_create_index (s : Store) : Except LoadError (FaissIndex × List Meta) :=
  match s.indexFile, s.metaFile with
  | some idxF, some metaF =>
    let index := match idxF with
      | some i => i
      | none => IndexFlatL2 EMBED_DIM
    match metaF with
    | some metadata => Except.ok (index, metadata)
    | none => Except.error LoadError.metaReadError
  | _, _ => Except.ok (IndexFlatL2 EMBED_DIM, [])

/-- Model of `_save_index_and_meta` (`rag.py` lines 58-62): overwrite both
files with the serialized index and metadata. -/
def _save_index_and_meta (index : FaissIndex) (metadata : List Meta) : Store :=
  ⟨some (some index), some (some metadata)⟩

/-- The metadata records appended by `add_text_to_index` for `chunks`,
starting at position `base` (`rag.py` lines 114-121). -/
def newTextRecords (base : Nat) (report_id : Int) (chunks : List (List Char)) : List Meta :=
  chunks.enum.map fun p =>
    { chunk_id := base + p.1, report_id := report_id, type := EntryType.text, text := p.2 }

/-- The metadata record appended by `add_image_to_index` (`rag.py` lines
143-148); its text field holds the fixed placeholder. -/
def imageRecord (base : Nat) (report_id : Int) : Meta :=
  { chunk_id := base, report_id := report_id, type := EntryType.image,
    text := "(IMAGE EMBEDDING)".toList }

/-- Model of `add_text_to_index` (`rag.py` lines 94-123).  The
sentence-transformers model is external, so the batch encoder enters as the
parameter `encode`; the source relies on it returning one embedding per
input chunk.  Empty chunking returns before any store access. -/
def add_text_to_index (encode : List (List Char) → List Vec)
    (s : Store) (report_id : Int) (text : List Char) : Except LoadError Store :=
  let chunks := _chunk_text text 800 100
  if chunks = [] then Except.ok s
  else
    (_load_or_create_index s).bind fun im =>
      let index := im.1
      let metadata := im.2
      let padded := (encode chunks).map _pad_vector
      let index := if index.d ≠ EMBED_DIM then IndexFlatL2 EMBED_DIM else index
      let index := index.add padded
      let metadata := metadata ++ newTextRecords metadata.length report_id chunks
      Except.ok (_save_index_and_meta index metadata)

/-- Model of `add_image_to_index` (`rag.py` lines 127-150): a null
embedding returns before any store access; otherwise pad the single vector,
recreate the index if its dimension is off, append vector and record. -/
def add_image_to_index (s : Store) (report_id : Int) (embedding : Option Vec) :
    Except LoadError Store :=
  match embedding with
  | none => Except.ok s
  | some emb =>
    (_load_or_create_index s).bind fun im =>
      let index := im.1
      let metadata := im.2
      let vec := _pad_vector emb
      let index := if index.d ≠ EMBED_DIM then IndexFlatL2 EMBED_DIM else index
      let index := index.add [vec]
      let metadata := metadata ++ [imageRecord metadata.length report_id]
      Except.ok (_save_index_and_meta index metadata)

/-- Model of `search_patient_index` (`rag.py` lines 154-169).  The FAISS
`index.search` call is external and enters as the parameter `searchFn`
returning `(distances, indices)`; `encode` is the external text encoder.
The result carries the store through unchanged together with the records
kept by the bounds-checked collection loop (lines 164-168). -/
def search_patient_index (encode : List (List Char) → List Vec)
    (searchFn : FaissIndex → Vec → Nat → List Scalar × List Int)
    (s : Store) (query : List Char) (top_k : Nat) :
    Except LoadError (List Meta × Store) :=
  (_load_or_create_index s).bind fun im =>
    let index := im.1
    let metadata := im.2
    if index.ntotal = 0 ∨ metadata = [] then Except.ok ([], s)
    else
      let qvec := (encode [query]).headI
      let q := _pad_vector qvec
      let indices := (searchFn index q top_k).2
      let results := indices.filterMap fun idx =>
        if 0 ≤ idx ∧ idx < (metadata.length : Int) then
          some (metadata.getD idx.toNat dfltMeta)
        else none
      Except.ok (results, s)

/-- Model of `search_by_vector` (`rag.py` lines 173-192).  Each kept record
is paired with the distance the source extracts as
`distances[0][list(indices[0]).index(idx)]`, i.e. the distance at the first
occurrence of `idx` in the returned positions. -/
def search_by_vector (searchFn : FaissIndex → Vec → Nat → List Scalar × List Int)
    (s : Store) (vector : Vec) (top_k : Nat) :
    Except LoadError (List (Scalar × Meta) × Store) :=
  (_load_or_create_index s).bind fun im =>
    let index := im.1
    let metadata := im.2
    if index.ntotal = 0 ∨ metadata = [] then Except.ok ([], s)
    else
      let q := _pad_vector vector
      let res := searchFn index q top_k
      let distances := res.1
      let indices := res.2
      let results := indices.filterMap fun idx =>
        if 0 ≤ idx ∧ idx < (metadata.length : Int) then
          some (distances.getD (indices.indexOf idx) 0, metadata.getD idx.toNat dfltMeta)
        else none
      Except.ok (results, s)

/-- Diagnostic counters returned by `get_patient_index_stats`. -/
structure IndexStats where
  ntotal_vectors : Nat
  metadata_len : Nat
deriving DecidableEq

/-- Model of `get_patient_index_stats` (`rag.py` lines 195-201). -/
def get_patient_index_stats (s : Store) : Except LoadError (IndexStats × Store) :=
  (_load_or_create_index s).bind fun im =>
    Except.ok ({ ntotal_vectors := im.1.ntotal, metadata_len := im.2.length }, s)

/-- One call against a single patient's store, for invariant traces. -/
inductive RagOp
  | addText (report_id : Int) (text : List Char)
  | addImage (report_id : Int) (embedding : Option Vec)

/-- Apply one indexing call to the store. -/
def applyOp (encode : List (List Char) → List Vec) (s : Store) :
    RagOp → Except LoadError Store
  | RagOp.addText rid t => add_text_to_index encode s rid t
  | RagOp.addImage rid e => add_image_to_index s rid e

/-- Run a sequence of indexing calls, stopping at the first raised error. -/
def runOps (encode : List (List Char) → List Vec) (s : Store) :
    List RagOp → Except LoadError Store
  | [] => Except.ok s
  | op :: ops =>
    match applyOp encode s op with
    | Except.error e => Except.error e
    | Except.ok s' => runOps encode s' ops

/-- Documented behaviour of `faiss.IndexFlatL2.search` on an index holding
`ntotal` vectors, asked for `k` neighbours: it returns exactly `k`
positions, each either a valid stored-vector position or the sentinel `-1`
(used to pad when `k` exceeds `ntotal`), and the valid positions are
pairwise distinct. -/
def faissContract (ntotal k : Nat) (res : List Scalar × List Int) : Prop :=
  res.2.length = k ∧
  (∀ i ∈ res.2, i = -1 ∨ (0 ≤ i ∧ i < (ntotal : Int))) ∧
  (res.2.filter (fun i => decide (i ≠ -1))).Nodup

/-- Store consistency invariant: the store loads without error, its index
has the current width, the vector count equals the metadata length, and the
metadata chunk ids are exactly the positions `0, 1, ...` in order. -/
def StoreInv (s : Store) : Prop :=
  ∃ index metadata,
    _load_or_create_index s = Except.ok (index, metadata) ∧
    index.d = EMBED_DIM ∧
    index.ntotal = metadata.length ∧
    metadata.map Meta.chunk_id = List.range metadata.length

/-! ### Concrete fixtures used by witnesses and counterexamples -/

/-- A persisted empty store: both files exist and hold an empty index of
width `EMBED_DIM` and an empty metadata log. -/
def emptyStore : Store := _save_index_and_meta (IndexFlatL2 EMBED_DIM) []

/-- A store whose index file deserializes but whose metadata file exists
and is unreadable (its `json.load` raises). -/
def corruptMetaStore : Store := ⟨some (some (IndexFlatL2 EMBED_DIM)), some none⟩

/-- A persisted index whose stored vector width is `TEXT_DIM = 384`, not
the current `EMBED_DIM = 512`: the dimension-mismatch scenario. -/
def mismIdx : FaissIndex := ⟨TEXT_DIM, [List.replicate TEXT_DIM 0]⟩

/-- Nonempty metadata accompanying `mismIdx`. -/
def mismMeta : List Meta := [⟨0, 1, EntryType.text, "old chunk".toList⟩]

/-- The persisted store holding `mismIdx` and `mismMeta`. -/
def mismStore : Store := ⟨some (some mismIdx), some (some mismMeta)⟩

/-- A trivial batch encoder returning one (empty) embedding per input, used
to instantiate the external-encoder parameter in witnesses. -/
def constEncode : List (List Char) → List Vec := fun cs => cs.map fun _ => []

/-- A searcher that returns only sentinel positions, satisfying
`faissContract` for every index and every `k`; used in witnesses. -/
def sentinelSearch : FaissIndex → Vec → Nat → List Scalar × List Int :=
  fun _ _ k => (List.replicate k 0, List.replicate k (-1))

/-- A 2500-character text with a space at position 799 (and no other
whitespace): per-chunk stripping shortens its first chunk to 799
characters. -/
def badT : List Char := List.replicate 799 'a' ++ ' ' :: List.replicate 1700 'b'

/-! ### General helper lemmas -/

theorem dropWhile_eq_self_of_all {p : Char → Bool} {l : List Char}
    (h : ∀ c ∈ l, p c = false) : l.dropWhile p = l := by
  cases l with
  | nil => rfl
  | cons a t => simp [List.dropWhile_cons, h a (List.mem_cons_self a t)]

theorem pyStrip_eq_self {l : List Char} (h : ∀ c ∈ l, isspace c = false) :
    pyStrip l = l := by
  unfold pyStrip
  rw [dropWhile_eq_self_of_all h, dropWhile_eq_self_of_all, List.reverse_reverse]
  intro c hc
  exact h c (List.mem_reverse.mp hc)

theorem length_pyStrip_le (l : List Char) : (pyStrip l).length ≤ l.length := by
  unfold pyStrip
  calc (((l.dropWhile isspace).reverse.dropWhile isspace).reverse).length
      = ((l.dropWhile isspace).reverse.dropWhile isspace).length := List.length_reverse _
    _ ≤ (l.dropWhile isspace).reverse.length :=
        (List.dropWhile_sublist _).length_le
    _ = (l.dropWhile isspace).length := List.length_reverse _
    _ ≤ l.length := (List.dropWhile_sublist _).length_le

/-! ### Theorems for the claims -/

/-- C4: for every non-empty numeric input vector, `_pad_vector` returns a
vector of exactly length `W = EMBED_DIM = max(text width, image width)`;
at length `W` it returns the input unchanged; above `W` it returns exactly
the first `W` elements; below `W` it returns the input followed by zeros,
so the last `W - len` elements are exactly zero. -/
theorem C4_pad_vector_unification (v : Vec) (hne : v ≠ []) :
    EMBED_DIM = max TEXT_DIM IMAGE_DIM ∧
    (_pad_vector v).length = EMBED_DIM ∧
    (v.length = EMBED_DIM → _pad_vector v = v) ∧
    (EMBED_DIM < v.length → _pad_vector v = v.take EMBED_DIM) ∧
    (v.length < EMBED_DIM →
      _pad_vector v = v ++ List.replicate (EMBED_DIM - v.length) 0 ∧
      (_pad_vector v).drop v.length = List.replicate (EMBED_DIM - v.length) 0) := by
  refine ⟨rfl, ?_, ?_, ?_, ?_⟩
  · unfold _pad_vector
    split
    · omega
    · split
      · rename_i h1 h2
        rw [List.length_take]
        omega
      · rename_i h1 h2
        rw [List.length_append, List.length_replicate]
        omega
  · intro h
    simp [_pad_vector, h]
  · intro h
    have h1 : ¬ v.length = EMBED_DIM := by omega
    simp only [_pad_vector, if_neg h1, if_pos h]
  · intro h
    have h1 : ¬ v.length = EMBED_DIM := by omega
    have h2 : ¬ EMBED_DIM < v.length := by omega
    have heq : _pad_vector v = v ++ List.replicate (EMBED_DIM - v.length) 0 := by
      simp only [_pad_vector, if_neg h1, if_neg h2]
    refine ⟨heq, ?_⟩
    rw [heq, List.drop_append_eq_append_drop, List.drop_of_length_le (le_refl _),
      Nat.sub_self, List.drop_zero, List.nil_append]

/-- Witness for C4 at the concrete one-element vector `[1]`. -/
theorem C4_pad_vector_unification_witness :
    EMBED_DIM = max TEXT_DIM IMAGE_DIM ∧
    (_pad_vector [1]).length = EMBED_DIM ∧
    (([1] : Vec).length = EMBED_DIM → _pad_vector [1] = [1]) ∧
    (EMBED_DIM < ([1] : Vec).length → _pad_vector [1] = ([1] : Vec).take EMBED_DIM) ∧
    (([1] : Vec).length < EMBED_DIM →
      _pad_vector [1] = [1] ++ List.replicate (EMBED_DIM - ([1] : Vec).length) 0 ∧
      (_pad_vector [1]).drop ([1] : Vec).length =
        List.replicate (EMBED_DIM - ([1] : Vec).length) 0) :=
  C4_pad_vector_unification [1] (by simp)

/-- C9: `_pad_vector` is total on the empty vector as well: it returns the
all-zeros vector of length `EMBED_DIM` rather than rejecting or raising. -/
theorem C9_pad_vector_total_on_empty :
    _pad_vector [] = List.replicate EMBED_DIM 0 ∧ (_pad_vector []).length = EMBED_DIM := by
  have h : _pad_vector [] = List.replicate EMBED_DIM 0 := by
    unfold _pad_vector
    simp only [List.length_nil, List.nil_append, Nat.sub_zero]
    norm_num [EMBED_DIM, TEXT_DIM, IMAGE_DIM]
  exact ⟨h, by rw [h, List.length_replicate]⟩

/-- C7: on a patient with no prior writes (absent store) and on a persisted
empty store, both query operations return an empty sequence and raise no
error, for every encoder, every searcher, every query and every `top_k`. -/
theorem C7_empty_search_returns_nil :
    ∀ (encode : List (List Char) → List Vec)
      (sf : FaissIndex → Vec → Nat → List Scalar × List Int)
      (q : List Char) (v : Vec) (k : Nat),
    search_patient_index encode sf absentStore q k = Except.ok ([], absentStore) ∧
    search_by_vector sf absentStore v k = Except.ok ([], absentStore) ∧
    search_patient_index encode sf emptyStore q k = Except.ok ([], emptyStore) ∧
    search_by_vector sf emptyStore v k = Except.ok ([], emptyStore) := by
  intro encode sf q v k
  refine ⟨?_, ?_, ?_, ?_⟩ <;>
    simp [search_patient_index, search_by_vector, _load_or_create_index,
      absentStore, emptyStore, _save_index_and_meta, IndexFlatL2,
      FaissIndex.ntotal, Except.bind]

/-- C8: adding text that chunks to nothing, and adding a null image
embedding, are silent no-ops: no error is raised and the store is left
completely untouched (the early return happens before any load or save, so
this holds even for stores whose load would raise). -/
theorem C8_empty_add_noop :
    ∀ (encode : List (List Char) → List Vec) (s : Store) (rid : Int) (text : List Char),
    (_chunk_text text 800 100 = [] → add_text_to_index encode s rid text = Except.ok s) ∧
    add_image_to_index s rid none = Except.ok s := by
  intro encode s rid text
  constructor
  · intro h
    simp [add_text_to_index, h]
  · rfl

/-- Witness for C8: empty text over a store with an unreadable metadata
file is still a no-op, confirming that no load happens. -/
theorem C8_empty_add_noop_witness :
    _chunk_text [] 800 100 = [] ∧
    add_text_to_index constEncode corruptMetaStore 7 [] = Except.ok corruptMetaStore ∧
    add_image_to_index corruptMetaStore 7 none = Except.ok corruptMetaStore :=
  ⟨rfl, (C8_empty_add_noop constEncode corruptMetaStore 7 []).1 rfl,
    (C8_empty_add_noop constEncode corruptMetaStore 7 []).2⟩

/-- C10: the two query operations and the stats operation never mutate the
persisted store: each either raises (touching nothing) or returns its
result together with the store exactly as it was. -/
theorem C10_queries_no_mutation :
    ∀ (encode : List (List Char) → List Vec)
      (sf : FaissIndex → Vec → Nat → List Scalar × List Int)
      (s : Store) (q : List Char) (v : Vec) (k : Nat),
    ((∃ e, search_patient_index encode sf s q k = Except.error e) ∨
      (∃ res, search_patient_index encode sf s q k = Except.ok (res, s))) ∧
    ((∃ e, search_by_vector sf s v k = Except.error e) ∨
      (∃ res, search_by_vector sf s v k = Except.ok (res, s))) ∧
    ((∃ e, get_patient_index_stats s = Except.error e) ∨
      (∃ res, get_patient_index_stats s = Except.ok (res, s))) := by
  intro encode sf s q v k
  refine ⟨?_, ?_, ?_⟩
  · cases hload : _load_or_create_index s with
    | error e =>
      exact Or.inl ⟨e, by simp [search_patient_index, hload, Except.bind]⟩
    | ok im =>
      refine Or.inr ?_
      simp only [search_patient_index, hload, Except.bind]
      split
      · exact ⟨[], rfl⟩
      · exact ⟨_, rfl⟩
  · cases hload : _load_or_create_index s with
    | error e =>
      exact Or.inl ⟨e, by simp [search_by_vector, hload, Except.bind]⟩
    | ok im =>
      refine Or.inr ?_
      simp only [search_by_vector, hload, Except.bind]
      split
      · exact ⟨[], rfl⟩
      · exact ⟨_, rfl⟩
  · cases hload : _load_or_create_index s with
    | error e =>
      exact Or.inl ⟨e, by simp [get_patient_index_stats, hload, Except.bind]⟩
    | ok im =>
      exact Or.inr ⟨⟨im.1.ntotal, im.2.length⟩,
        by simp [get_patient_index_stats, hload, Except.bind]⟩

/-- C3 counterexample: the metadata file being present but unreadable IS
surfaced as an error by the load (its `json.load` is outside the
try/except), contradicting that a corrupt store is never surfaced. -/
theorem C3_counterexample :
    _load_or_create_index corruptMetaStore = Except.error LoadError.metaReadError := rfl

/-- C3 amended: with both files present, a vector-index file that fails to
deserialize falls back to a fresh empty index of width `EMBED_DIM` while
the metadata file is still loaded; a store with either file missing loads
as empty without error; but a metadata file that is present and unreadable
raises to the caller. -/
theorem C3_amended_load_self_healing (md : List Meta) (s : Store)
    (hmiss : s.indexFile = none ∨ s.metaFile = none) :
    _load_or_create_index ⟨some none, some (some md)⟩ =
      Except.ok (IndexFlatL2 EMBED_DIM, md) ∧
    _load_or_create_index s = Except.ok (IndexFlatL2 EMBED_DIM, []) ∧
    ∀ idxF, _load_or_create_index ⟨some idxF, some none⟩ =
      Except.error LoadError.metaReadError := by
  obtain ⟨iF, mF⟩ := s
  refine ⟨rfl, ?_, ?_⟩
  · rcases hmiss with h | h <;> simp only at h <;> subst h
    · cases mF <;> rfl
    · cases iF <;> rfl
  · intro idxF
    cases idxF <;> rfl

/-- Witness for C3 at a concrete metadata log and the absent store. -/
theorem C3_amended_load_self_healing_witness :
    _load_or_create_index ⟨some none, some (some mismMeta)⟩ =
      Except.ok (IndexFlatL2 EMBED_DIM, mismMeta) ∧
    _load_or_create_index absentStore = Except.ok (IndexFlatL2 EMBED_DIM, []) ∧
    ∀ idxF, _load_or_create_index ⟨some idxF, some none⟩ =
      Except.error LoadError.metaReadError :=
  C3_amended_load_self_healing mismMeta absentStore (Or.inl rfl)

/-- C2 counterexample: loading a persisted store whose index width is
`TEXT_DIM = 384 ≠ EMBED_DIM` returns that index and its metadata untouched
and nonempty: the load does not discard and rebuild the store. -/
theorem C2_counterexample :
    mismIdx.d ≠ EMBED_DIM ∧
    _load_or_create_index mismStore = Except.ok (mismIdx, mismMeta) ∧
    mismIdx.vecs ≠ [] ∧ mismMeta ≠ [] := by
  refine ⟨?_, rfl, ?_, ?_⟩
  · norm_num [mismIdx, EMBED_DIM, TEXT_DIM, IMAGE_DIM]
  · simp [mismIdx]
  · simp [mismMeta]

/-- C2 amended: a stored width different from `EMBED_DIM` is not handled by
the load; instead the next add operation silently replaces the vector
index by a fresh empty one of width `EMBED_DIM` — discarding the old
vectors but NOT the metadata log, which is preserved and extended — and no
error is raised. -/
theorem C2_amended_dim_mismatch_on_add
    (encode : List (List Char) → List Vec) (s : Store)
    (index : FaissIndex) (metadata : List Meta)
    (hload : _load_or_create_index s = Except.ok (index, metadata))
    (hd : index.d ≠ EMBED_DIM) :
    (∀ rid text, _chunk_text text 800 100 ≠ [] →
      add_text_to_index encode s rid text =
        Except.ok (_save_index_and_meta
          ⟨EMBED_DIM, (encode (_chunk_text text 800 100)).map _pad_vector⟩
          (metadata ++ newTextRecords metadata.length rid (_chunk_text text 800 100)))) ∧
    (∀ rid v, add_image_to_index s rid (some v) =
      Except.ok (_save_index_and_meta
        ⟨EMBED_DIM, [_pad_vector v]⟩
        (metadata ++ [imageRecord metadata.length rid]))) := by
  constructor
  · intro rid text hchunks
    simp only [add_text_to_index, if_neg hchunks, hload, Except.bind, if_pos hd,
      FaissIndex.add, IndexFlatL2, List.nil_append]
  · intro rid v
    simp only [add_image_to_index, hload, Except.bind, if_pos hd,
      FaissIndex.add, IndexFlatL2, List.nil_append]

/-- Witness for C2 on the concrete mismatched store. -/
theorem C2_amended_dim_mismatch_on_add_witness :
    add_text_to_index constEncode mismStore 3 "abc".toList =
      Except.ok (_save_index_and_meta
        ⟨EMBED_DIM, (constEncode (_chunk_text "abc".toList 800 100)).map _pad_vector⟩
        (mismMeta ++ newTextRecords mismMeta.length 3 (_chunk_text "abc".toList 800 100))) ∧
    add_image_to_index mismStore 4 (some [5]) =
      Except.ok (_save_index_and_meta
        ⟨EMBED_DIM, [_pad_vector [5]]⟩
        (mismMeta ++ [imageRecord mismMeta.length 4])) :=
  ⟨(C2_amended_dim_mismatch_on_add constEncode mismStore mismIdx mismMeta rfl
      (by norm_num [mismIdx, EMBED_DIM, TEXT_DIM, IMAGE_DIM])).1 3 "abc".toList
      (by decide),
    (C2_amended_dim_mismatch_on_add constEncode mismStore mismIdx mismMeta rfl
      (by norm_num [mismIdx, EMBED_DIM, TEXT_DIM, IMAGE_DIM])).2 4 [5]⟩

/-! ### Invariant preservation (claim C1) -/

theorem load_save (i : FaissIndex) (m : List Meta) :
    _load_or_create_index (_save_index_and_meta i m) = Except.ok (i, m) := rfl

theorem length_newTextRecords (base : Nat) (rid : Int) (cs : List (List Char)) :
    (newTextRecords base rid cs).length = cs.length := by
  simp [newTextRecords]

theorem map_chunkId_newTextRecords (base : Nat) (rid : Int) (cs : List (List Char)) :
    (newTextRecords base rid cs).map Meta.chunk_id =
      (List.range cs.length).map (fun i => base + i) := by
  unfold newTextRecords
  rw [List.map_map, ← List.enum_map_fst cs, List.map_map]
  rfl

theorem storeInv_absent : StoreInv absentStore :=
  ⟨IndexFlatL2 EMBED_DIM, [], rfl, rfl, rfl, rfl⟩

theorem applyOp_preserves_inv (encode : List (List Char) → List Vec)
    (henc : ∀ cs, (encode cs).length = cs.length)
    (s : Store) (hs : StoreInv s) (op : RagOp) :
    ∃ s', applyOp encode s op = Except.ok s' ∧ StoreInv s' := by
  obtain ⟨index, metadata, hload, hd, hcount, hids⟩ := hs
  have hd' : ¬ index.d ≠ EMBED_DIM := by simp [hd]
  cases op with
  | addText rid t =>
    by_cases hch : _chunk_text t 800 100 = []
    · exact ⟨s, by simp [applyOp, add_text_to_index, hch],
        ⟨index, metadata, hload, hd, hcount, hids⟩⟩
    · refine ⟨_save_index_and_meta
        (index.add ((encode (_chunk_text t 800 100)).map _pad_vector))
        (metadata ++ newTextRecords metadata.length rid (_chunk_text t 800 100)), ?_, ?_⟩
      · simp only [applyOp, add_text_to_index, if_neg hch, hload, Except.bind, if_neg hd']
      · refine ⟨_, _, load_save _ _, by simp [FaissIndex.add, hd], ?_, ?_⟩
        · have hc : index.vecs.length = metadata.length := hcount
          simp only [FaissIndex.add, FaissIndex.ntotal, List.length_append,
            List.length_map, henc, length_newTextRecords, hc]
        · rw [List.map_append, hids, map_chunkId_newTextRecords,
            List.length_append, length_newTextRecords, List.range_add]
  | addImage rid e =>
    cases e with
    | none =>
      exact ⟨s, rfl, ⟨index, metadata, hload, hd, hcount, hids⟩⟩
    | some emb =>
      refine ⟨_save_index_and_meta (index.add [_pad_vector emb])
        (metadata ++ [imageRecord metadata.length rid]), ?_, ?_⟩
      · simp only [applyOp, add_image_to_index, hload, Except.bind, if_neg hd']
      · refine ⟨_, _, load_save _ _, by simp [FaissIndex.add, hd], ?_, ?_⟩
        · have hc : index.vecs.length = metadata.length := hcount
          simp [FaissIndex.add, FaissIndex.ntotal, hc]
        · rw [List.map_append, hids, List.length_append]
          simp [imageRecord, List.range_succ]

theorem runOps_preserves_inv (encode : List (List Char) → List Vec)
    (henc : ∀ cs, (encode cs).length = cs.length) :
    ∀ (ops : List RagOp) (s : Store), StoreInv s →
      ∃ s', runOps encode s ops = Except.ok s' ∧ StoreInv s'
  | [], s, hs => ⟨s, rfl, hs⟩
  | op :: ops, s, hs => by
    obtain ⟨s1, h1, hs1⟩ := applyOp_preserves_inv encode henc s hs op
    obtain ⟨s', h', hs'⟩ := runOps_preserves_inv encode henc ops s1 hs1
    exact ⟨s', by simp [runOps, h1, h'], hs'⟩

/-- C1: for every sequence of add-text and add-image calls against one
patient starting from an absent store, every call succeeds and afterwards
the number of vectors in the index equals the length of the metadata log,
and every metadata record's chunk id equals its zero-based position in the
log (the hypothesis on `encode` is the sentence-transformers contract of
one embedding per input chunk).  Since the op sequence is universally
quantified, this holds after every intermediate call as well. -/
theorem C1_index_metadata_parity (encode : List (List Char) → List Vec)
    (henc : ∀ cs, (encode cs).length = cs.length) (ops : List RagOp) :
    ∃ s index metadata,
      runOps encode absentStore ops = Except.ok s ∧
      _load_or_create_index s = Except.ok (index, metadata) ∧
      index.ntotal = metadata.length ∧
      ∀ i (h : i < metadata.length), (metadata.get ⟨i, h⟩).chunk_id = i := by
  obtain ⟨s, hrun, index, metadata, hload, _, hcount, hids⟩ :=
    runOps_preserves_inv encode henc ops absentStore storeInv_absent
  refine ⟨s, index, metadata, hrun, hload, hcount, ?_⟩
  intro i h
  have h2 : (metadata.map Meta.chunk_id)[i]? = (List.range metadata.length)[i]? := by
    rw [hids]
  rw [List.getElem?_map, List.getElem?_range h, List.getElem?_eq_getElem h] at h2
  simp only [Option.map_some', Option.some.injEq] at h2
  simpa using h2

/-- Witness for C1 on a concrete two-call trace. -/
theorem C1_index_metadata_parity_witness :
    ∃ s index metadata,
      runOps constEncode absentStore
        [RagOp.addText 1 "hello world".toList, RagOp.addImage 2 (some [3])] =
        Except.ok s ∧
      _load_or_create_index s = Except.ok (index, metadata) ∧
      index.ntotal = metadata.length ∧
      ∀ i (h : i < metadata.length), (metadata.get ⟨i, h⟩).chunk_id = i :=
  C1_index_metadata_parity constEncode (fun cs => by simp [constEncode])
    [RagOp.addText 1 "hello world".toList, RagOp.addImage 2 (some [3])]

/-! ### Bounds-checked search collection (claim C6) -/

theorem filterMap_if {β : Type} (p : Int → Prop) [DecidablePred p] (g : Int → β) :
    ∀ l : List Int,
      (l.filterMap fun i => if p i then some (g i) else none) =
        (l.filter fun i => decide (p i)).map g
  | [] => rfl
  | a :: l => by
    by_cases h : p a <;>
      simp [List.filterMap_cons, List.filter_cons, h, filterMap_if p g l]

theorem length_le_of_nodup_bounded (l : List Int) (n : Nat) (hnd : l.Nodup)
    (hmem : ∀ i ∈ l, 0 ≤ i ∧ i < (n : Int)) : l.length ≤ n := by
  have h1 : l.toFinset.card = l.length := List.toFinset_card_of_nodup hnd
  have h2 : l.toFinset ⊆ Finset.Ico (0 : ℤ) (n : ℤ) := by
    intro x hx
    rw [List.mem_toFinset] at hx
    rcases hmem x hx with ⟨ha, hb⟩
    rw [Finset.mem_Ico]
    exact ⟨ha, hb⟩
  have h3 := Finset.card_le_card h2
  rw [h1, Int.card_Ico] at h3
  omega

theorem search_filter_spec {β : Type} (metadata : List Meta) (ntotal k : Nat)
    (indices : List Int) (g : Int → β)
    (hlen : indices.length = k)
    (hmem : ∀ i ∈ indices, i = -1 ∨ (0 ≤ i ∧ i < (ntotal : Int)))
    (hnd : (indices.filter fun i => decide (i ≠ -1)).Nodup) :
    (∀ r ∈ (indices.filterMap fun idx =>
        if 0 ≤ idx ∧ idx < (metadata.length : Int) then some (g idx) else none),
      ∃ i ∈ indices, (0 ≤ i ∧ i < (metadata.length : Int)) ∧ r = g i) ∧
    (indices.filterMap fun idx =>
        if 0 ≤ idx ∧ idx < (metadata.length : Int) then some (g idx) else none).length ≤ k ∧
    (indices.filterMap fun idx =>
        if 0 ≤ idx ∧ idx < (metadata.length : Int) then some (g idx) else none).length
      ≤ metadata.length ∧
    (indices.filterMap fun idx =>
        if 0 ≤ idx ∧ idx < (metadata.length : Int) then some (g idx) else none).length
      ≤ ntotal := by
  rw [filterMap_if (fun idx => 0 ≤ idx ∧ idx < (metadata.length : Int)) g indices]
  have hkept : (indices.filter fun i => decide (0 ≤ i ∧ i < (metadata.length : Int))) =
      ((indices.filter fun i => decide (i ≠ -1)).filter
         fun i => decide (0 ≤ i ∧ i < (metadata.length : Int))) := by
    rw [List.filter_filter]
    apply List.filter_congr
    intro i _
    by_cases h : 0 ≤ i ∧ i < (metadata.length : Int)
    · have : i ≠ -1 := by omega
      simp [h, this]
    · simp [h]
  have hndk : (indices.filter fun i => decide (0 ≤ i ∧ i < (metadata.length : Int))).Nodup := by
    rw [hkept]
    exact hnd.filter _
  have hmemk : ∀ i ∈ (indices.filter fun i => decide (0 ≤ i ∧ i < (metadata.length : Int))),
      (0 ≤ i ∧ i < (metadata.length : Int)) ∧ (0 ≤ i ∧ i < (ntotal : Int)) := by
    intro i hi
    rw [List.mem_filter] at hi
    have hp : 0 ≤ i ∧ i < (metadata.length : Int) := by
      have := hi.2
      simpa using this
    rcases hmem i hi.1 with h | h
    · omega
    · exact ⟨hp, h⟩
  refine ⟨?_, ?_, ?_, ?_⟩
  · intro r hr
    rw [List.mem_map] at hr
    obtain ⟨i, hi, hgi⟩ := hr
    have := hmemk i hi
    rw [List.mem_filter] at hi
    exact ⟨i, hi.1, this.1, hgi.symm⟩
  · rw [List.length_map, ← hlen]
    exact (List.filter_sublist _).length_le
  · rw [List.length_map]
    exact length_le_of_nodup_bounded _ _ hndk fun i hi => (hmemk i hi).1
  · rw [List.length_map]
    exact length_le_of_nodup_bounded _ _ hndk fun i hi => (hmemk i hi).2

/-- C6: under the documented FAISS search contract, every record returned
by `search_patient_index` or `search_by_vector` comes from a
search-returned position inside `[0, metadata.length)`; out-of-range and
sentinel positions are dropped, so at most `min(top_k, stored count)`
records come back and no out-of-bounds metadata access occurs. -/
theorem C6_search_bounds
    (encode : List (List Char) → List Vec)
    (sf : FaissIndex → Vec → Nat → List Scalar × List Int)
    (hsf : ∀ idx q k, faissContract idx.ntotal k (sf idx q k))
    (s : Store) (q : List Char) (v : Vec) (k : Nat)
    (index : FaissIndex) (metadata : List Meta)
    (hload : _load_or_create_index s = Except.ok (index, metadata)) :
    (∀ res st, search_patient_index encode sf s q k = Except.ok (res, st) →
      (∀ r ∈ res, ∃ i ∈ (sf index (_pad_vector (encode [q]).headI) k).2,
        (0 ≤ i ∧ i < (metadata.length : Int)) ∧ r = metadata.getD i.toNat dfltMeta) ∧
      res.length ≤ k ∧ res.length ≤ metadata.length ∧ res.length ≤ index.ntotal) ∧
    (∀ res st, search_by_vector sf s v k = Except.ok (res, st) →
      (∀ r ∈ res, ∃ i ∈ (sf index (_pad_vector v) k).2,
        (0 ≤ i ∧ i < (metadata.length : Int)) ∧
        r = ((sf index (_pad_vector v) k).1.getD
               ((sf index (_pad_vector v) k).2.indexOf i) 0,
             metadata.getD i.toNat dfltMeta)) ∧
      res.length ≤ k ∧ res.length ≤ metadata.length ∧ res.length ≤ index.ntotal) := by
  constructor
  · intro res st hres
    simp only [search_patient_index, hload, Except.bind] at hres
    by_cases hempty : index.ntotal = 0 ∨ metadata = []
    · rw [if_pos hempty] at hres
      simp only [Except.ok.injEq, Prod.mk.injEq] at hres
      obtain ⟨h1, _⟩ := hres
      subst h1
      simp
    · rw [if_neg hempty] at hres
      simp only [Except.ok.injEq, Prod.mk.injEq] at hres
      obtain ⟨h1, _⟩ := hres
      obtain ⟨hlen, hmem, hnd⟩ := hsf index (_pad_vector (encode [q]).headI) k
      have := search_filter_spec metadata index.ntotal k
        (sf index (_pad_vector (encode [q]).headI) k).2
        (fun idx => metadata.getD idx.toNat dfltMeta) hlen hmem hnd
      rw [h1] at this
      exact this
  · intro res st hres
    simp only [search_by_vector, hload, Except.bind] at hres
    by_cases hempty : index.ntotal = 0 ∨ metadata = []
    · rw [if_pos hempty] at hres
      simp only [Except.ok.injEq, Prod.mk.injEq] at hres
      obtain ⟨h1, _⟩ := hres
      subst h1
      simp
    · rw [if_neg hempty] at hres
      simp only [Except.ok.injEq, Prod.mk.injEq] at hres
      obtain ⟨h1, _⟩ := hres
      obtain ⟨hlen, hmem, hnd⟩ := hsf index (_pad_vector v) k
      have := search_filter_spec metadata index.ntotal k
        (sf index (_pad_vector v) k).2
        (fun idx => ((sf index (_pad_vector v) k).1.getD
            ((sf index (_pad_vector v) k).2.indexOf idx) 0,
          metadata.getD idx.toNat dfltMeta)) hlen hmem hnd
      rw [h1] at this
      exact this

theorem sentinelSearch_contract :
    ∀ (idx : FaissIndex) (q : Vec) (k : Nat),
      faissContract idx.ntotal k (sentinelSearch idx q k) := by
  intro idx q k
  refine ⟨by simp [sentinelSearch], ?_, ?_⟩
  · intro i hi
    exact Or.inl (List.eq_of_mem_replicate hi)
  · have : ((List.replicate k (-1 : Int)).filter fun i => decide (i ≠ -1)) = [] := by
      rw [List.filter_eq_nil_iff]
      intro a ha
      simp [List.eq_of_mem_replicate ha]
    simp only [sentinelSearch]
    rw [this]
    exact List.nodup_nil

/-- Witness for C6 at the persisted empty store with the sentinel-only
searcher. -/
theorem C6_search_bounds_witness :
    (∀ res st, search_patient_index constEncode sentinelSearch emptyStore "q".toList 5 =
        Except.ok (res, st) →
      (∀ r ∈ res, ∃ i ∈ (sentinelSearch (IndexFlatL2 EMBED_DIM)
          (_pad_vector (constEncode ["q".toList]).headI) 5).2,
        (0 ≤ i ∧ i < (([] : List Meta).length : Int)) ∧
        r = ([] : List Meta).getD i.toNat dfltMeta) ∧
      res.length ≤ 5 ∧ res.length ≤ ([] : List Meta).length ∧
      res.length ≤ (IndexFlatL2 EMBED_DIM).ntotal) ∧
    (∀ res st, search_by_vector sentinelSearch emptyStore [2] 5 = Except.ok (res, st) →
      (∀ r ∈ res, ∃ i ∈ (sentinelSearch (IndexFlatL2 EMBED_DIM) (_pad_vector [2]) 5).2,
        (0 ≤ i ∧ i < (([] : List Meta).length : Int)) ∧
        r = ((sentinelSearch (IndexFlatL2 EMBED_DIM) (_pad_vector [2]) 5).1.getD
               ((sentinelSearch (IndexFlatL2 EMBED_DIM) (_pad_vector [2]) 5).2.indexOf i) 0,
             ([] : List Meta).getD i.toNat dfltMeta)) ∧
      res.length ≤ 5 ∧ res.length ≤ ([] : List Meta).length ∧
      res.length ≤ (IndexFlatL2 EMBED_DIM).ntotal) :=
  C6_search_bounds constEncode sentinelSearch sentinelSearch_contract emptyStore
    "q".toList [2] 5 (IndexFlatL2 EMBED_DIM) [] rfl

/-! ### Chunking lemmas (claim C5) -/

theorem chunkGo_succ (t : List Char) (m s fuel start : Nat) :
    chunkGo t m s (fuel + 1) start =
      if start < t.length then
        (if pyStrip ((t.drop start).take m) = [] then
          (if t.length ≤ start + m then [] else chunkGo t m s fuel (start + s))
         else
          pyStrip ((t.drop start).take m) ::
            (if t.length ≤ start + m then [] else chunkGo t m s fuel (start + s)))
      else [] := rfl

theorem chunkGo_mem_length_le (t : List Char) (m s : Nat) :
    ∀ (fuel start : Nat), ∀ c ∈ chunkGo t m s fuel start, c.length ≤ m := by
  intro fuel
  induction fuel with
  | zero =>
    intro start c hc
    simp [chunkGo] at hc
  | succ fuel ih =>
    intro start c hc
    rw [chunkGo_succ] at hc
    by_cases h1 : start < t.length
    · rw [if_pos h1] at hc
      have hstr : (pyStrip ((t.drop start).take m)).length ≤ m :=
        le_trans (length_pyStrip_le _) (List.length_take_le _ _)
      by_cases h2 : pyStrip ((t.drop start).take m) = []
      · rw [if_pos h2] at hc
        by_cases h3 : t.length ≤ start + m
        · rw [if_pos h3] at hc
          simp at hc
        · rw [if_neg h3] at hc
          exact ih _ c hc
      · rw [if_neg h2] at hc
        rcases List.mem_cons.mp hc with h | h
        · rw [h]; exact hstr
        · by_cases h3 : t.length ≤ start + m
          · rw [if_pos h3] at h
            simp at h
          · rw [if_neg h3] at h
            exact ih _ c h
    · rw [if_neg h1] at hc
      simp at hc

theorem chunk_text_mem_length_le (text : List Char) (m o : Nat) :
    ∀ c ∈ _chunk_text text m o, c.length ≤ m := by
  intro c hc
  unfold _chunk_text at hc
  by_cases h1 : text = []
  · rw [if_pos h1] at hc; simp at hc
  · rw [if_neg h1] at hc
    by_cases h2 : pyStrip text = []
    · rw [if_pos h2] at hc; simp at hc
    · rw [if_neg h2] at hc
      exact chunkGo_mem_length_le _ _ _ _ _ c hc

theorem chunk_text_whitespace_free_2500 (t : List Char)
    (hws : ∀ c ∈ t, isspace c = false) (hlen : t.length = 2500) :
    _chunk_text t 800 100 =
      [t.take 800, (t.drop 700).take 800, (t.drop 1400).take 800, (t.drop 2100).take 800] := by
  have hne : t ≠ [] := by
    intro h
    rw [h] at hlen
    simp at hlen
  have hstrip : pyStrip t = t := pyStrip_eq_self hws
  have hchunk : ∀ a : Nat, pyStrip ((t.drop a).take 800) = (t.drop a).take 800 := fun a =>
    pyStrip_eq_self fun c hc => hws c (List.mem_of_mem_drop (List.mem_of_mem_take hc))
  have hchunkne : ∀ a : Nat, a < 2500 → (t.drop a).take 800 ≠ [] := by
    intro a ha
    apply List.length_pos.mp
    rw [List.length_take, List.length_drop, hlen]
    omega
  have hchunk0 : pyStrip (t.take 800) = t.take 800 := by
    have h := hchunk 0
    rwa [List.drop_zero] at h
  have hchunkne0 : t.take 800 ≠ [] := by
    have h := hchunkne 0 (by norm_num)
    rwa [List.drop_zero] at h
  unfold _chunk_text
  rw [if_neg hne]
  simp only [hstrip, if_neg hne, hlen]
  norm_num
  -- first window: start 0
  rw [show (2501 : Nat) = 2500 + 1 by norm_num, chunkGo_succ]
  simp only [hlen, List.drop_zero]
  rw [if_pos (by norm_num : (0 : Nat) < 2500), hchunk0, if_neg hchunkne0,
    if_neg (by norm_num : ¬ (2500 : Nat) ≤ 0 + 800)]
  -- second window: start 700
  rw [show (0 : Nat) + 700 = 700 by norm_num,
    show (2500 : Nat) = 2499 + 1 by norm_num, chunkGo_succ]
  simp only [hlen]
  rw [if_pos (by norm_num : (700 : Nat) < 2500), hchunk 700,
    if_neg (hchunkne 700 (by norm_num)),
    if_neg (by norm_num : ¬ (2500 : Nat) ≤ 700 + 800)]
  -- third window: start 1400
  rw [show (700 : Nat) + 700 = 1400 by norm_num,
    show (2499 : Nat) = 2498 + 1 by norm_num, chunkGo_succ]
  simp only [hlen]
  rw [if_pos (by norm_num : (1400 : Nat) < 2500), hchunk 1400,
    if_neg (hchunkne 1400 (by norm_num)),
    if_neg (by norm_num : ¬ (2500 : Nat) ≤ 1400 + 800)]
  -- fourth window: start 2100, ends the iteration
  rw [show (1400 : Nat) + 700 = 2100 by norm_num,
    show (2498 : Nat) = 2497 + 1 by norm_num, chunkGo_succ]
  simp only [hlen]
  rw [if_pos (by norm_num : (2100 : Nat) < 2500), hchunk 2100,
    if_neg (hchunkne 2100 (by norm_num)),
    if_pos (by norm_num : (2500 : Nat) ≤ 2100 + 800)]

/-- C5 amended: every chunk the chunker emits has length at most `C = 800`,
with window starts stepping by `C - O = 700`; and for every
whitespace-free input of length 2500 it produces exactly the 4 windows at
offsets 0, 700, 1400, 2100, the first three of length 800 and each sharing
exactly its last 100 characters with its successor's first 100.  (The
unamended claim quantified over all length-2500 inputs; per-chunk
stripping refutes that, see the counterexample.) -/
theorem C5_amended_chunking (t : List Char) :
    (∀ c ∈ _chunk_text t 800 100, c.length ≤ 800) ∧
    ((∀ c ∈ t, isspace c = false) → t.length = 2500 →
      _chunk_text t 800 100 =
        [t.take 800, (t.drop 700).take 800, (t.drop 1400).take 800, (t.drop 2100).take 800] ∧
      (_chunk_text t 800 100).map List.length = [800, 800, 800, 400] ∧
      (t.take 800).drop 700 = ((t.drop 700).take 800).take 100 ∧
      ((t.drop 700).take 800).drop 700 = ((t.drop 1400).take 800).take 100 ∧
      ((t.drop 1400).take 800).drop 700 = ((t.drop 2100).take 800).take 100) := by
  refine ⟨chunk_text_mem_length_le t 800 100, ?_⟩
  intro hws hlen
  have heq := chunk_text_whitespace_free_2500 t hws hlen
  refine ⟨heq, ?_, ?_, ?_, ?_⟩
  · rw [heq]
    simp only [List.map_cons, List.map_nil, List.length_take, List.length_drop, hlen]
    norm_num
  · rw [List.drop_take, List.take_take]
    norm_num
  · rw [List.drop_take, List.drop_drop, List.take_take]
    norm_num
  · rw [List.drop_take, List.drop_drop, List.take_take]
    norm_num

/-- Witness for C5 at the whitespace-free input of 2500 letters. -/
theorem C5_amended_chunking_witness :
    (∀ c ∈ _chunk_text (List.replicate 2500 'a') 800 100, c.length ≤ 800) ∧
    _chunk_text (List.replicate 2500 'a') 800 100 =
      [(List.replicate 2500 'a').take 800,
       ((List.replicate 2500 'a').drop 700).take 800,
       ((List.replicate 2500 'a').drop 1400).take 800,
       ((List.replicate 2500 'a').drop 2100).take 800] ∧
    (_chunk_text (List.replicate 2500 'a') 800 100).map List.length = [800, 800, 800, 400] ∧
    ((List.replicate 2500 'a').take 800).drop 700 =
      (((List.replicate 2500 'a').drop 700).take 800).take 100 ∧
    (((List.replicate 2500 'a').drop 700).take 800).drop 700 =
      (((List.replicate 2500 'a').drop 1400).take 800).take 100 ∧
    (((List.replicate 2500 'a').drop 1400).take 800).drop 700 =
      (((List.replicate 2500 'a').drop 2100).take 800).take 100 :=
  ⟨(C5_amended_chunking (List.replicate 2500 'a')).1,
    (C5_amended_chunking (List.replicate 2500 'a')).2
      (fun c hc => by rw [List.eq_of_mem_replicate hc]; decide)
      (List.length_replicate 2500 'a')⟩

theorem dropWhile_replicate_append {p : Char → Bool} {a : Char} (n : Nat) (l : List Char)
    (ha : p a = false) (hn : n ≠ 0) :
    (List.replicate n a ++ l).dropWhile p = List.replicate n a ++ l := by
  cases n with
  | zero => exact absurd rfl hn
  | succ m =>
    rw [List.replicate_succ, List.cons_append, List.dropWhile_cons_of_neg (by simp [ha])]

theorem dropWhile_replicate {p : Char → Bool} {a : Char} (n : Nat) (ha : p a = false) :
    (List.replicate n a).dropWhile p = List.replicate n a := by
  cases n with
  | zero => rfl
  | succ m =>
    rw [List.replicate_succ, List.dropWhile_cons_of_neg (by simp [ha])]

theorem badT_length : badT.length = 2500 := by
  unfold badT
  rw [List.length_append, List.length_cons, List.length_replicate, List.length_replicate]

theorem pyStrip_badT : pyStrip badT = badT := by
  have hrev : badT.reverse = List.replicate 1700 'b' ++ ' ' :: List.replicate 799 'a' := by
    unfold badT
    rw [List.reverse_append, List.reverse_cons, List.reverse_replicate,
      List.reverse_replicate, List.append_assoc, List.singleton_append]
  have hdw : badT.dropWhile isspace = badT := by
    unfold badT
    exact dropWhile_replicate_append 799 _ (by decide) (by norm_num)
  have hdwr : badT.reverse.dropWhile isspace = badT.reverse := by
    rw [hrev]
    exact dropWhile_replicate_append 1700 _ (by decide) (by norm_num)
  unfold pyStrip
  rw [hdw, hdwr, List.reverse_reverse]

theorem badT_take_800 : badT.take 800 = List.replicate 799 'a' ++ [' '] := by
  unfold badT
  rw [List.take_append_eq_append_take, List.take_replicate, List.length_replicate]
  norm_num

theorem pyStrip_badT_take_800 : pyStrip (badT.take 800) = List.replicate 799 'a' := by
  rw [badT_take_800]
  have hrev1 : (List.replicate 799 'a' ++ [' ']).reverse = ' ' :: List.replicate 799 'a' := by
    rw [List.reverse_append, List.reverse_replicate]
    rfl
  unfold pyStrip
  rw [dropWhile_replicate_append 799 _ (by decide) (by norm_num), hrev1,
    List.dropWhile_cons_of_pos (by decide), dropWhile_replicate 799 (by decide),
    List.reverse_replicate]

theorem chunk_text_badT_head :
    ∃ rest, _chunk_text badT 800 100 = List.replicate 799 'a' :: rest := by
  have hne : badT ≠ [] := by
    intro h
    have := badT_length
    rw [h] at this
    simp at this
  unfold _chunk_text
  rw [if_neg hne]
  simp only [pyStrip_badT, if_neg hne, badT_length]
  norm_num
  rw [chunkGo_succ]
  simp only [badT_length, List.drop_zero]
  rw [if_pos (by norm_num : (0 : Nat) < 2500), pyStrip_badT_take_800,
    if_neg (by
      apply List.length_pos.mp
      rw [List.length_replicate]
      norm_num : List.replicate 799 'a' ≠ [])]
  exact ⟨_, rfl⟩

/-- C5 counterexample: `badT` is a non-empty, non-whitespace-only input of
length exactly 2500, yet its first chunk is stripped down to 799
characters, so the first three chunks are not all of length 800 as the
claim requires for every length-2500 input. -/
theorem C5_counterexample :
    badT.length = 2500 ∧ badT ≠ [] ∧ pyStrip badT ≠ [] ∧
    ¬ (∀ c ∈ (_chunk_text badT 800 100).take 3, c.length = 800) := by
  have hne : badT ≠ [] := by
    intro h
    have := badT_length
    rw [h] at this
    simp at this
  refine ⟨badT_length, hne, ?_, ?_⟩
  · rw [pyStrip_badT]
    exact hne
  · intro hall
    obtain ⟨rest, hhead⟩ := chunk_text_badT_head
    have hmem : List.replicate 799 'a' ∈ (_chunk_text badT 800 100).take 3 := by
      rw [hhead, show (3 : Nat) = 2 + 1 from rfl, List.take_succ_cons]
      exact List.mem_cons_self _ _
    have := hall _ hmem
    rw [List.length_replicate] at this
    norm_num at this

end MedicalRag

